import Mathlib

/-!
Shallow embedding of the two scoring models of `src/poem/models/unimodal`
(`rescal.py` and `trans_r.py`).  Float tensors are idealized over the real
numbers; a PyTorch tensor of shape (a, b, c) is a function
`Fin a → Fin b → Fin c → ℝ`.  Integer id batches are functions from `Fin b`
into the id ranges.  The development is noncomputable only because the real
square root and real division of the idealized float semantics are.
-/

noncomputable section

/-- Row-major flat index of the entry (i, j) of an m × n matrix, as used by
`torch.Tensor.view` when reshaping a flat vector of length m*n to (m, n). -/
def flatIdx {m n : ℕ} (i : Fin m) (j : Fin n) : Fin (m * n) :=
  ⟨i.1 * n + j.1, by
    have hj := j.2
    calc i.1 * n + j.1 < i.1 * n + n := by omega
      _ = (i.1 + 1) * n := by ring
      _ ≤ m * n := Nat.mul_le_mul_right n i.2⟩

/-- `v.view(m, n)`: reshape a flat vector of length m*n into an m × n matrix. -/
def reshape2 {m n : ℕ} (v : Fin (m * n) → ℝ) : Fin m → Fin n → ℝ :=
  fun i j => v (flatIdx i j)

/-- Squared Euclidean norm of a vector. -/
def sqNorm {d : ℕ} (v : Fin d → ℝ) : ℝ := ∑ j, v j ^ 2

/-- Euclidean norm `torch.norm(v, p=2)` of a vector. -/
def l2norm {d : ℕ} (v : Fin d → ℝ) : ℝ := Real.sqrt (sqNorm v)

/-- Row-vector-matrix product `v @ M`. -/
def vecMat {m n : ℕ} (v : Fin m → ℝ) (M : Fin m → Fin n → ℝ) : Fin n → ℝ :=
  fun j => ∑ k, v k * M k j

/-- `torch.nn.functional.normalize(v, p=2)` on one row, idealized over ℝ.
The float implementation divides by `max(norm, 1e-12)`, which maps a zero row
to itself; division by zero in ℝ yields 0, which agrees on the zero row. -/
def normalizeRow {d : ℕ} (v : Fin d → ℝ) : Fin d → ℝ :=
  fun j => v j / l2norm v

/-- The RESCAL model of `rescal.py`: an entity table of nE rows of length d
and a relation table whose rows store each d × d relation matrix flattened to
length d*d (`nn.Embedding(num_relations, embedding_dim ** 2)`). -/
structure RESCAL (nE nR d : ℕ) where
  entity_embeddings : Fin nE → Fin d → ℝ
  relation_embeddings : Fin nR → Fin (d * d) → ℝ

/-- A tensor operand reported to the regularizer, together with its shape. -/
structure RegTensor where
  p : ℕ
  q : ℕ
  r : ℕ
  data : Fin p → Fin q → Fin r → ℝ

/-- One accumulation call `self.regularize_if_necessary(h, r, t)`. -/
structure RegCall where
  hOp : RegTensor
  rOp : RegTensor
  tOp : RegTensor

/-- A RESCAL model together with the regularizer state, modelled as the list
of accumulation calls made so far (most recent first).

Modelled from the spec: `BaseModule.regularize_if_necessary` and the
`Regularizer` class live in modules that are not part of the two source
files.  Per the spec the regularizer "accumulates penalty terms from
embeddings touched during scoring", is "invoked opportunistically per scoring
call", "once per call, unconditionally", with "accumulate(*tensors) -> None"
additive; an invocation is therefore modelled as prepending one record of the
operand tensors to the accumulation list. -/
structure RESCALState (nE nR d : ℕ) where
  model : RESCAL nE nR d
  regCalls : List RegCall

/-- `RESCAL.score_hrt`: h looked up and viewed (b,1,d), r viewed (b,d,d),
t viewed (b,d,1); `scores = h @ r @ t`; reports (h, r, t) to the regularizer;
returns `scores[:, :, 0]` of shape (b, 1). -/
def RESCALState.score_hrt {nE nR d b : ℕ} (s : RESCALState nE nR d)
    (hrt : Fin b → Fin nE × Fin nR × Fin nE) :
    RESCALState nE nR d × (Fin b → Fin 1 → ℝ) :=
  let h : Fin b → Fin 1 → Fin d → ℝ := fun i _ j => s.model.entity_embeddings (hrt i).1 j
  let r : Fin b → Fin d → Fin d → ℝ := fun i => reshape2 (s.model.relation_embeddings (hrt i).2.1)
  let t : Fin b → Fin d → Fin 1 → ℝ := fun i k _ => s.model.entity_embeddings (hrt i).2.2 k
  let scores : Fin b → Fin 1 → Fin 1 → ℝ := fun i z w => ∑ k, (∑ j, h i z j * r i j k) * t i k w
  (⟨s.model, ⟨⟨b, 1, d, h⟩, ⟨b, d, d, r⟩, ⟨b, d, 1, t⟩⟩ :: s.regCalls⟩, fun i z => scores i z 0)

/-- `RESCAL.score_t`: h viewed (b,1,d), r viewed (b,d,d), and t is the whole
entity table transposed and viewed (1,d,nE); `scores = h @ r @ t` with the
batch dimension of t broadcast; reports (h, r, t) to the regularizer; returns
`scores[:, 0, :]` of shape (b, nE). -/
def RESCALState.score_t {nE nR d b : ℕ} (s : RESCALState nE nR d)
    (hr : Fin b → Fin nE × Fin nR) :
    RESCALState nE nR d × (Fin b → Fin nE → ℝ) :=
  let h : Fin b → Fin 1 → Fin d → ℝ := fun i _ j => s.model.entity_embeddings (hr i).1 j
  let r : Fin b → Fin d → Fin d → ℝ := fun i => reshape2 (s.model.relation_embeddings (hr i).2)
  let t : Fin 1 → Fin d → Fin nE → ℝ := fun _ k e => s.model.entity_embeddings e k
  let scores : Fin b → Fin 1 → Fin nE → ℝ := fun i z e => ∑ k, (∑ j, h i z j * r i j k) * t 0 k e
  (⟨s.model, ⟨⟨b, 1, d, h⟩, ⟨b, d, d, r⟩, ⟨1, d, nE, t⟩⟩ :: s.regCalls⟩, fun i e => scores i 0 e)

/-- `RESCAL.score_h`: h is the whole entity table viewed (1,nE,d), r viewed
(b,d,d), t viewed (b,d,1); `scores = h @ r @ t` with the batch dimension of h
broadcast; reports (h, r, t) to the regularizer; returns `scores[:, :, 0]` of
shape (b, nE). -/
def RESCALState.score_h {nE nR d b : ℕ} (s : RESCALState nE nR d)
    (rt : Fin b → Fin nR × Fin nE) :
    RESCALState nE nR d × (Fin b → Fin nE → ℝ) :=
  let h : Fin 1 → Fin nE → Fin d → ℝ := fun _ e j => s.model.entity_embeddings e j
  let r : Fin b → Fin d → Fin d → ℝ := fun i => reshape2 (s.model.relation_embeddings (rt i).1)
  let t : Fin b → Fin d → Fin 1 → ℝ := fun i k _ => s.model.entity_embeddings (rt i).2 k
  let scores : Fin b → Fin nE → Fin 1 → ℝ := fun i e w => ∑ k, (∑ j, h 0 e j * r i j k) * t i k w
  (⟨s.model, ⟨⟨1, nE, d, h⟩, ⟨b, d, d, r⟩, ⟨b, d, 1, t⟩⟩ :: s.regCalls⟩, fun i e => scores i e 0)

/-- The score tensor returned by `RESCAL.score_hrt`. -/
def RESCAL.score_hrt {nE nR d b : ℕ} (M : RESCAL nE nR d)
    (hrt : Fin b → Fin nE × Fin nR × Fin nE) : Fin b → Fin 1 → ℝ :=
  (RESCALState.score_hrt ⟨M, []⟩ hrt).2

/-- The score tensor returned by `RESCAL.score_t`. -/
def RESCAL.score_t {nE nR d b : ℕ} (M : RESCAL nE nR d)
    (hr : Fin b → Fin nE × Fin nR) : Fin b → Fin nE → ℝ :=
  (RESCALState.score_t ⟨M, []⟩ hr).2

/-- The score tensor returned by `RESCAL.score_h`. -/
def RESCAL.score_h {nE nR d b : ℕ} (M : RESCAL nE nR d)
    (rt : Fin b → Fin nR × Fin nE) : Fin b → Fin nE → ℝ :=
  (RESCALState.score_h ⟨M, []⟩ rt).2

lemma RESCAL.score_hrt_sum {nE nR d b : ℕ} (M : RESCAL nE nR d)
    (hrt : Fin b → Fin nE × Fin nR × Fin nE) (i : Fin b) (z : Fin 1) :
    M.score_hrt hrt i z =
      ∑ k, (∑ j, M.entity_embeddings (hrt i).1 j *
        reshape2 (M.relation_embeddings (hrt i).2.1) j k) *
        M.entity_embeddings (hrt i).2.2 k := rfl

lemma RESCAL.score_t_sum {nE nR d b : ℕ} (M : RESCAL nE nR d)
    (hr : Fin b → Fin nE × Fin nR) (i : Fin b) (e : Fin nE) :
    M.score_t hr i e =
      ∑ k, (∑ j, M.entity_embeddings (hr i).1 j *
        reshape2 (M.relation_embeddings (hr i).2) j k) *
        M.entity_embeddings e k := rfl

lemma RESCAL.score_h_sum {nE nR d b : ℕ} (M : RESCAL nE nR d)
    (rt : Fin b → Fin nR × Fin nE) (i : Fin b) (e : Fin nE) :
    M.score_h rt i e =
      ∑ k, (∑ j, M.entity_embeddings e j *
        reshape2 (M.relation_embeddings (rt i).1) j k) *
        M.entity_embeddings (rt i).2 k := rfl

/-- Claim C2: for every batch of valid (h,r,t) id-triples, `RESCAL.score_hrt`
looks up h as a (batch,1,d) row vector, r reshaped to a (batch,d,d) matrix and
t as a (batch,d,1) column vector (encoded in the types of the embedding), and
every entry of the returned (batch,1) score tensor equals the bilinear form
h @ R @ t, i.e. the double sum of h j * R j k * t k. -/
theorem C2_rescal_score_hrt_bilinear {nE nR d b : ℕ} (M : RESCAL nE nR d)
    (hrt : Fin b → Fin nE × Fin nR × Fin nE) (i : Fin b) (z : Fin 1) :
    M.score_hrt hrt i z =
      ∑ j, ∑ k, M.entity_embeddings (hrt i).1 j *
        reshape2 (M.relation_embeddings (hrt i).2.1) j k *
        M.entity_embeddings (hrt i).2.2 k := by
  rw [RESCAL.score_hrt_sum]
  calc ∑ k, (∑ j, M.entity_embeddings (hrt i).1 j *
        reshape2 (M.relation_embeddings (hrt i).2.1) j k) *
        M.entity_embeddings (hrt i).2.2 k
      = ∑ k, ∑ j, M.entity_embeddings (hrt i).1 j *
        reshape2 (M.relation_embeddings (hrt i).2.1) j k *
        M.entity_embeddings (hrt i).2.2 k :=
        Finset.sum_congr rfl fun k _ => Finset.sum_mul _ _ _
    _ = ∑ j, ∑ k, M.entity_embeddings (hrt i).1 j *
        reshape2 (M.relation_embeddings (hrt i).2.1) j k *
        M.entity_embeddings (hrt i).2.2 k := Finset.sum_comm

/-- The p=2 norm of the sub-tensor of a (b, m, d) tensor obtained by fixing
the LAST index to j.  `torch.renorm(x, p, dim, maxnorm)` normalizes the
sub-tensors of x obtained by slicing along `dim`; the call sites in
`trans_r.py` all pass `dim=-1`, so the sub-tensor at j is x[:, :, j] and its
norm ranges over the two leading dimensions. -/
def subNorm {b m d : ℕ} (x : Fin b → Fin m → Fin d → ℝ) (j : Fin d) : ℝ :=
  Real.sqrt (∑ i, ∑ k, x i k j ^ 2)

/-- `torch.renorm(x, p=2, dim=-1, maxnorm=1.)` on a (b, m, d) tensor,
idealized over ℝ (without the internal 1e-7 guard of the float kernel):
every sub-tensor x[:, :, j] whose L2 norm exceeds 1 is rescaled to norm 1;
sub-tensors of norm at most 1 are unchanged. -/
def renormLast {b m d : ℕ} (x : Fin b → Fin m → Fin d → ℝ) :
    Fin b → Fin m → Fin d → ℝ :=
  fun i k j => if 1 < subNorm x j then x i k j * (1 / subNorm x j) else x i k j

/-- The TransR model of `trans_r.py`: entity table (nE rows of length dE),
relation table (nR rows of length dR), relation projection table storing each
dE × dR projection matrix as a flat row (viewed `(-1, dE, dR)` on use), and
the `scoring_fct_norm` constructor parameter stored by `__init__`. -/
structure TransR (nE nR dE dR : ℕ) where
  entity_embeddings : Fin nE → Fin dE → ℝ
  relation_embeddings : Fin nR → Fin dR → ℝ
  relation_projections : Fin nR → Fin (dE * dR) → ℝ
  scoring_fct_norm : ℕ

/-- Projection of one entity row through one relation's projection matrix:
the row `entity_embeddings(e) @ relation_projections(r).view(dE, dR)`. -/
def TransR.projRow {nE nR dE dR : ℕ} (M : TransR nE nR dE dR)
    (rId : Fin nR) (e : Fin nE) : Fin dR → ℝ :=
  vecMat (M.entity_embeddings e) (reshape2 (M.relation_projections rId))

/-- `TransR.score_hrt`: h and t looked up and viewed (b,1,dE), r looked up
(shape (b,dR)), m_r viewed (b,dE,dR); h_bot and t_bot are
`torch.renorm(h @ m_r, p=2, dim=-1, maxnorm=1.)` (and likewise for t) viewed
(b,dR); the score is `-torch.norm(h_bot + r - t_bot, dim=-1, keepdim=True) ** 2`
of shape (b,1). -/
def TransR.score_hrt {nE nR dE dR b : ℕ} (M : TransR nE nR dE dR)
    (hrt : Fin b → Fin nE × Fin nR × Fin nE) : Fin b → Fin 1 → ℝ :=
  let h_bot : Fin b → Fin 1 → Fin dR → ℝ :=
    renormLast (fun i _ j => M.projRow (hrt i).2.1 (hrt i).1 j)
  let t_bot : Fin b → Fin 1 → Fin dR → ℝ :=
    renormLast (fun i _ j => M.projRow (hrt i).2.1 (hrt i).2.2 j)
  fun i _ =>
    -l2norm (fun j => h_bot i 0 j + M.relation_embeddings (hrt i).2.1 j - t_bot i 0 j) ^ 2

/-- `TransR.score_t`: h viewed (b,1,dE) and projected to (b,1,dR); t is the
whole entity table viewed (1,nE,dE), projected with each row's relation
matrix (broadcast `t @ m_r`, shape (b,nE,dR)); both renormed along dim=-1;
r viewed (b,1,dR); score `-torch.norm(h_bot + r - t_bot, dim=-1) ** 2` of
shape (b,nE). -/
def TransR.score_t {nE nR dE dR b : ℕ} (M : TransR nE nR dE dR)
    (hr : Fin b → Fin nE × Fin nR) : Fin b → Fin nE → ℝ :=
  let h_bot : Fin b → Fin 1 → Fin dR → ℝ :=
    renormLast (fun i _ j => M.projRow (hr i).2 (hr i).1 j)
  let t_bot : Fin b → Fin nE → Fin dR → ℝ :=
    renormLast (fun i e j => M.projRow (hr i).2 e j)
  fun i e =>
    -l2norm (fun j => h_bot i 0 j + M.relation_embeddings (hr i).2 j - t_bot i e j) ^ 2

/-- `TransR.score_h`: h is the whole entity table viewed (1,nE,dE), projected
with each row's relation matrix (broadcast `h @ m_r`, shape (b,nE,dR)); t
viewed (b,1,dE) and projected to (b,1,dR); both renormed along dim=-1; r
viewed (b,1,dR); score `-torch.norm(h_bot + r - t_bot, dim=-1) ** 2` of shape
(b,nE). -/
def TransR.score_h {nE nR dE dR b : ℕ} (M : TransR nE nR dE dR)
    (rt : Fin b → Fin nR × Fin nE) : Fin b → Fin nE → ℝ :=
  let h_bot : Fin b → Fin nE → Fin dR → ℝ :=
    renormLast (fun i e j => M.projRow (rt i).1 e j)
  let t_bot : Fin b → Fin 1 → Fin dR → ℝ :=
    renormLast (fun i _ j => M.projRow (rt i).1 (rt i).2 j)
  fun i e =>
    -l2norm (fun j => h_bot i e j + M.relation_embeddings (rt i).1 j - t_bot i 0 j) ^ 2

/-- `TransR.post_parameter_update`: after the (out-of-scope) base-class hook,
re-normalize the entity embedding table in place with
`functional.normalize(self.entity_embeddings.weight.data, out=...)`,
i.e. every row is divided by its Euclidean norm. -/
def TransR.post_parameter_update {nE nR dE dR : ℕ} (M : TransR nE nR dE dR) :
    TransR nE nR dE dR :=
  { M with entity_embeddings := fun e => normalizeRow (M.entity_embeddings e) }

/-- The lifecycle state of a TransR model: each table is `none` when the
corresponding attribute is `None` (uninitialized or cleared). -/
structure TransRState (nE nR dE dR : ℕ) where
  entity_embeddings : Option (Fin nE → Fin dE → ℝ)
  relation_embeddings : Option (Fin nR → Fin dR → ℝ)
  relation_projections : Option (Fin nR → Fin (dE * dR) → ℝ)

/-- `TransR.clear_weights_`: sets `entity_embeddings` and
`relation_embeddings` to `None` (and nothing else). -/
def TransRState.clear_weights_ {nE nR dE dR : ℕ} (s : TransRState nE nR dE dR) :
    TransRState nE nR dE dR :=
  { s with entity_embeddings := none, relation_embeddings := none }

/-- `TransR.init_empty_weights_`: each table that is `None` is replaced by a
freshly created one, and existing tables are kept.  The fresh values produced
by `nn.Embedding` plus `embedding_xavier_uniform_` are random, so they enter
as parameters; the fresh relation table is additionally re-normalized to unit
rows by `functional.normalize` (the entity table's `max_norm=1` option acts
at lookup time and is not a table transformation). -/
def TransRState.init_empty_weights_ {nE nR dE dR : ℕ}
    (s : TransRState nE nR dE dR) (freshE : Fin nE → Fin dE → ℝ)
    (freshR : Fin nR → Fin dR → ℝ) (freshP : Fin nR → Fin (dE * dR) → ℝ) :
    TransRState nE nR dE dR :=
  { entity_embeddings := some (s.entity_embeddings.getD freshE)
    relation_embeddings :=
      some (s.relation_embeddings.getD (fun rel => normalizeRow (freshR rel)))
    relation_projections := some (s.relation_projections.getD freshP) }

/-- The per-vector clamp described by the spec (and by the class docstring
constraint on projected entities): clip ONE vector to Euclidean norm at most
1, leaving vectors of norm at most 1 unchanged.  This follows the spec text
"re-normalize (clip) the projected vector to Euclidean norm ≤ 1"; it is the
comparison point for what `torch.renorm(·, p=2, dim=-1, maxnorm=1)` actually
computes. -/
def clampNormSpec {d : ℕ} (v : Fin d → ℝ) : Fin d → ℝ :=
  if 1 < l2norm v then fun j => v j * (1 / l2norm v) else v

lemma TransR.score_hrt_apply {nE nR dE dR b : ℕ} (M : TransR nE nR dE dR)
    (hrt : Fin b → Fin nE × Fin nR × Fin nE) (i : Fin b) (z : Fin 1) :
    M.score_hrt hrt i z =
      -l2norm (fun j =>
        renormLast (fun i' (_ : Fin 1) j' => M.projRow (hrt i').2.1 (hrt i').1 j') i 0 j +
        M.relation_embeddings (hrt i).2.1 j -
        renormLast (fun i' (_ : Fin 1) j' => M.projRow (hrt i').2.1 (hrt i').2.2 j') i 0 j) ^ 2 := rfl

lemma TransR.score_t_apply {nE nR dE dR b : ℕ} (M : TransR nE nR dE dR)
    (hr : Fin b → Fin nE × Fin nR) (i : Fin b) (e : Fin nE) :
    M.score_t hr i e =
      -l2norm (fun j =>
        renormLast (fun i' (_ : Fin 1) j' => M.projRow (hr i').2 (hr i').1 j') i 0 j +
        M.relation_embeddings (hr i).2 j -
        renormLast (fun i' e' j' => M.projRow (hr i').2 e' j') i e j) ^ 2 := rfl

lemma TransR.score_h_apply {nE nR dE dR b : ℕ} (M : TransR nE nR dE dR)
    (rt : Fin b → Fin nR × Fin nE) (i : Fin b) (e : Fin nE) :
    M.score_h rt i e =
      -l2norm (fun j =>
        renormLast (fun i' e' j' => M.projRow (rt i').1 e' j') i e j +
        M.relation_embeddings (rt i).1 j -
        renormLast (fun i' (_ : Fin 1) j' => M.projRow (rt i').1 (rt i').2 j') i 0 j) ^ 2 := rfl


lemma sqNorm_nonneg {d : ℕ} (v : Fin d → ℝ) : 0 ≤ sqNorm v :=
  Finset.sum_nonneg fun _ _ => sq_nonneg _

lemma l2norm_nonneg {d : ℕ} (v : Fin d → ℝ) : 0 ≤ l2norm v :=
  Real.sqrt_nonneg _

lemma l2norm_sq {d : ℕ} (v : Fin d → ℝ) : l2norm v ^ 2 = sqNorm v :=
  Real.sq_sqrt (sqNorm_nonneg v)

lemma neg_l2norm_sq {d : ℕ} (v : Fin d → ℝ) : -l2norm v ^ 2 = -sqNorm v := by
  rw [l2norm_sq]

lemma l2norm_eq_zero_iff {d : ℕ} (v : Fin d → ℝ) : l2norm v = 0 ↔ ∀ j, v j = 0 := by
  constructor
  · intro h j
    have hS : sqNorm v = 0 := by
      have := Real.sqrt_eq_zero (sqNorm_nonneg v) |>.mp h
      exact this
    have hz := (Finset.sum_eq_zero_iff_of_nonneg
      (fun j _ => sq_nonneg (v j))).mp hS j (Finset.mem_univ j)
    exact pow_eq_zero_iff two_ne_zero |>.mp hz
  · intro h
    have : sqNorm v = 0 := by
      simp [sqNorm, h]
    rw [l2norm, this, Real.sqrt_zero]

lemma subNorm_nonneg {b m d : ℕ} (x : Fin b → Fin m → Fin d → ℝ) (j : Fin d) :
    0 ≤ subNorm x j :=
  Real.sqrt_nonneg _

lemma renormLast_noop {b m d : ℕ} (x : Fin b → Fin m → Fin d → ℝ)
    (h : ∀ j, subNorm x j ≤ 1) : renormLast x = x := by
  funext i k j
  simp [renormLast, not_lt.mpr (h j)]

lemma subNorm_renormLast {b m d : ℕ} (x : Fin b → Fin m → Fin d → ℝ) (j : Fin d) :
    subNorm (renormLast x) j = if 1 < subNorm x j then 1 else subNorm x j := by
  by_cases h1 : 1 < subNorm x j
  · have hn : 0 < subNorm x j := lt_trans one_pos h1
    rw [if_pos h1]
    have hpt : ∀ i k, renormLast x i k j ^ 2 =
        (1 / subNorm x j) ^ 2 * x i k j ^ 2 := by
      intro i k
      simp only [renormLast, if_pos h1]
      ring
    calc subNorm (renormLast x) j
        = Real.sqrt (∑ i, ∑ k, (1 / subNorm x j) ^ 2 * x i k j ^ 2) := by
          rw [subNorm]
          congr 1
          exact Finset.sum_congr rfl fun i _ => Finset.sum_congr rfl fun k _ => hpt i k
      _ = Real.sqrt ((1 / subNorm x j) ^ 2 * ∑ i, ∑ k, x i k j ^ 2) := by
          rw [Finset.mul_sum]
          congr 1
          exact Finset.sum_congr rfl fun i _ => (Finset.mul_sum _ _ _).symm
      _ = (1 / subNorm x j) * subNorm x j := by
          rw [Real.sqrt_mul (sq_nonneg _), Real.sqrt_sq (by positivity), subNorm]
      _ = 1 := one_div_mul_cancel (ne_of_gt hn)
  · rw [if_neg h1]
    have hpt : ∀ i k, renormLast x i k j = x i k j := by
      intro i k
      simp [renormLast, h1]
    rw [subNorm]
    rw [subNorm]
    congr 1
    exact Finset.sum_congr rfl fun i _ => Finset.sum_congr rfl fun k _ => by rw [hpt i k]

lemma renormLast_idem {b m d : ℕ} (x : Fin b → Fin m → Fin d → ℝ) :
    renormLast (renormLast x) = renormLast x := by
  funext i k j
  have hstep : renormLast (renormLast x) i k j =
      if 1 < subNorm (renormLast x) j then
        renormLast x i k j * (1 / subNorm (renormLast x) j)
      else renormLast x i k j := rfl
  by_cases h1 : 1 < subNorm x j
  · have h2 : ¬ 1 < subNorm (renormLast x) j := by
      rw [subNorm_renormLast, if_pos h1]
      exact lt_irrefl 1
    rw [hstep, if_neg h2]
  · have h2 : ¬ 1 < subNorm (renormLast x) j := by
      rw [subNorm_renormLast, if_neg h1]
      exact h1
    rw [hstep, if_neg h2]

lemma entry_abs_le_subNorm {b m d : ℕ} (x : Fin b → Fin m → Fin d → ℝ)
    (i : Fin b) (k : Fin m) (j : Fin d) : |x i k j| ≤ subNorm x j := by
  rw [subNorm, ← Real.sqrt_sq_eq_abs]
  apply Real.sqrt_le_sqrt
  calc x i k j ^ 2
      ≤ ∑ k', x i k' j ^ 2 :=
        Finset.single_le_sum (fun k' _ => sq_nonneg (x i k' j)) (Finset.mem_univ k)
    _ ≤ ∑ i', ∑ k', x i' k' j ^ 2 :=
        Finset.single_le_sum
          (fun i' _ => Finset.sum_nonneg fun k' _ => sq_nonneg (x i' k' j))
          (Finset.mem_univ i)

lemma subNorm_b1 {d : ℕ} (f : Fin 1 → Fin 1 → Fin d → ℝ) (j : Fin d) :
    subNorm f j = |f 0 0 j| := by
  rw [subNorm, Fin.sum_univ_one, Fin.sum_univ_one, Real.sqrt_sq_eq_abs]

lemma TransR.score_hrt_noclip {nE nR dE dR b : ℕ} (M : TransR nE nR dE dR)
    (hrt : Fin b → Fin nE × Fin nR × Fin nE)
    (hH : ∀ j, subNorm (fun i (_ : Fin 1) j' => M.projRow (hrt i).2.1 (hrt i).1 j') j ≤ 1)
    (hT : ∀ j, subNorm (fun i (_ : Fin 1) j' => M.projRow (hrt i).2.1 (hrt i).2.2 j') j ≤ 1)
    (i : Fin b) (z : Fin 1) :
    M.score_hrt hrt i z =
      -sqNorm (fun j => M.projRow (hrt i).2.1 (hrt i).1 j +
        M.relation_embeddings (hrt i).2.1 j - M.projRow (hrt i).2.1 (hrt i).2.2 j) := by
  rw [TransR.score_hrt_apply, renormLast_noop _ hH, renormLast_noop _ hT, neg_l2norm_sq]

lemma TransR.score_t_noclip {nE nR dE dR b : ℕ} (M : TransR nE nR dE dR)
    (hr : Fin b → Fin nE × Fin nR)
    (hH : ∀ j, subNorm (fun i (_ : Fin 1) j' => M.projRow (hr i).2 (hr i).1 j') j ≤ 1)
    (hT : ∀ j, subNorm (fun i (e : Fin nE) j' => M.projRow (hr i).2 e j') j ≤ 1)
    (i : Fin b) (e : Fin nE) :
    M.score_t hr i e =
      -sqNorm (fun j => M.projRow (hr i).2 (hr i).1 j +
        M.relation_embeddings (hr i).2 j - M.projRow (hr i).2 e j) := by
  rw [TransR.score_t_apply, renormLast_noop _ hH, renormLast_noop _ hT, neg_l2norm_sq]

lemma TransR.score_h_noclip {nE nR dE dR b : ℕ} (M : TransR nE nR dE dR)
    (rt : Fin b → Fin nR × Fin nE)
    (hH : ∀ j, subNorm (fun i (e : Fin nE) j' => M.projRow (rt i).1 e j') j ≤ 1)
    (hT : ∀ j, subNorm (fun i (_ : Fin 1) j' => M.projRow (rt i).1 (rt i).2 j') j ≤ 1)
    (i : Fin b) (e : Fin nE) :
    M.score_h rt i e =
      -sqNorm (fun j => M.projRow (rt i).1 e j +
        M.relation_embeddings (rt i).1 j - M.projRow (rt i).1 (rt i).2 j) := by
  rw [TransR.score_h_apply, renormLast_noop _ hH, renormLast_noop _ hT, neg_l2norm_sq]

lemma abs_le_l2norm {d : ℕ} (v : Fin d → ℝ) (j : Fin d) : |v j| ≤ l2norm v := by
  rw [l2norm, sqNorm, ← Real.sqrt_sq_eq_abs]
  exact Real.sqrt_le_sqrt
    (Finset.single_le_sum (fun j' _ => sq_nonneg (v j')) (Finset.mem_univ j))

/-- Claim C10: the scores returned by TransR's score_hrt, score_t and score_h
are independent of the `scoring_fct_norm` constructor parameter: a model that
differs only in that field returns equal score tensors on every input,
because the three scoring methods use the Euclidean norm unconditionally. -/
theorem C10_scores_independent_of_scoring_fct_norm {nE nR dE dR b : ℕ}
    (M : TransR nE nR dE dR) (n : ℕ)
    (hrt : Fin b → Fin nE × Fin nR × Fin nE)
    (hr : Fin b → Fin nE × Fin nR) (rt : Fin b → Fin nR × Fin nE) :
    TransR.score_hrt { M with scoring_fct_norm := n } hrt = TransR.score_hrt M hrt ∧
    TransR.score_t { M with scoring_fct_norm := n } hr = TransR.score_t M hr ∧
    TransR.score_h { M with scoring_fct_norm := n } rt = TransR.score_h M rt :=
  ⟨rfl, rfl, rfl⟩

/-- Claim C5: each of RESCAL's three scoring methods invokes the regularizer
accumulation exactly once per call, unconditionally, prepending to the
accumulation list exactly one record holding the operand tensors (h, R, t)
computed for that call, and mutates no other model state (the model component
of the state is unchanged). -/
theorem C5_rescal_regularizer_once_per_call {nE nR d b : ℕ}
    (s : RESCALState nE nR d) (hrt : Fin b → Fin nE × Fin nR × Fin nE)
    (hr : Fin b → Fin nE × Fin nR) (rt : Fin b → Fin nR × Fin nE) :
    ((s.score_hrt hrt).1.model = s.model ∧
      (s.score_hrt hrt).1.regCalls =
        ⟨⟨b, 1, d, fun i _ j => s.model.entity_embeddings (hrt i).1 j⟩,
         ⟨b, d, d, fun i => reshape2 (s.model.relation_embeddings (hrt i).2.1)⟩,
         ⟨b, d, 1, fun i k _ => s.model.entity_embeddings (hrt i).2.2 k⟩⟩ :: s.regCalls) ∧
    ((s.score_t hr).1.model = s.model ∧
      (s.score_t hr).1.regCalls =
        ⟨⟨b, 1, d, fun i _ j => s.model.entity_embeddings (hr i).1 j⟩,
         ⟨b, d, d, fun i => reshape2 (s.model.relation_embeddings (hr i).2)⟩,
         ⟨1, d, nE, fun _ k e => s.model.entity_embeddings e k⟩⟩ :: s.regCalls) ∧
    ((s.score_h rt).1.model = s.model ∧
      (s.score_h rt).1.regCalls =
        ⟨⟨1, nE, d, fun _ e j => s.model.entity_embeddings e j⟩,
         ⟨b, d, d, fun i => reshape2 (s.model.relation_embeddings (rt i).1)⟩,
         ⟨b, d, 1, fun i k _ => s.model.entity_embeddings (rt i).2 k⟩⟩ :: s.regCalls) :=
  ⟨⟨rfl, rfl⟩, ⟨rfl, rfl⟩, ⟨rfl, rfl⟩⟩

/-- Claim C6: the renorm clip operation used by TransR
(`torch.renorm(·, p=2, dim=-1, maxnorm=1)`) is idempotent: applying it twice
yields the same result as applying it once; it leaves every tensor all of
whose sub-tensors already have norm at most 1 unchanged; in particular a
single vector of Euclidean norm at most 1 is unchanged (a threshold clip, not
a hard normalize). -/
theorem C6_renorm_idempotent_threshold :
    (∀ (b m d : ℕ) (x : Fin b → Fin m → Fin d → ℝ),
      renormLast (renormLast x) = renormLast x) ∧
    (∀ (b m d : ℕ) (x : Fin b → Fin m → Fin d → ℝ),
      (∀ j, subNorm x j ≤ 1) → renormLast x = x) ∧
    (∀ (d : ℕ) (v : Fin d → ℝ), l2norm v ≤ 1 →
      renormLast (fun (_ : Fin 1) (_ : Fin 1) j => v j) = fun _ _ j => v j) :=
  ⟨fun _ _ _ x => renormLast_idem x,
   fun _ _ _ x h => renormLast_noop x h,
   fun _ v hv => renormLast_noop _ (fun j => by
     rw [subNorm_b1]
     exact le_trans (abs_le_l2norm v j) hv)⟩

/-- Witness for C6 at concrete inputs: the constant-2 (1,1,1) tensor for
idempotence, and the zero vector (norm 0 ≤ 1) left unchanged. -/
theorem C6_renorm_idempotent_threshold_witness :
    renormLast (renormLast (fun (_ : Fin 1) (_ : Fin 1) (_ : Fin 1) => (2 : ℝ))) =
      renormLast (fun _ _ _ => (2 : ℝ)) ∧
    renormLast (fun (_ : Fin 1) (_ : Fin 1) (_ : Fin 1) => (0 : ℝ)) =
      fun _ _ _ => (0 : ℝ) :=
  ⟨C6_renorm_idempotent_threshold.1 1 1 1 _,
   C6_renorm_idempotent_threshold.2.2 1 (fun _ => (0 : ℝ)) (by
     norm_num [l2norm, sqNorm])⟩

/-- Claim C8: when zero-norm projected entity vectors are fed to TransR's
renorm clip (here: the h and t entities of every row of the batch have zero
embedding rows, so the projected tensors are zero), the clip is a no-op on
those tensors and `score_hrt` returns the well-defined real value -‖r‖² on
every row; no division by a (near-)zero norm occurs. -/
theorem C8_zero_projection_noop {nE nR dE dR b : ℕ} (M : TransR nE nR dE dR)
    (hrt : Fin b → Fin nE × Fin nR × Fin nE)
    (hh : ∀ i k, M.entity_embeddings (hrt i).1 k = 0)
    (ht : ∀ i k, M.entity_embeddings (hrt i).2.2 k = 0) :
    renormLast (fun i (_ : Fin 1) j => M.projRow (hrt i).2.1 (hrt i).1 j) =
      (fun i _ j => M.projRow (hrt i).2.1 (hrt i).1 j) ∧
    renormLast (fun i (_ : Fin 1) j => M.projRow (hrt i).2.1 (hrt i).2.2 j) =
      (fun i _ j => M.projRow (hrt i).2.1 (hrt i).2.2 j) ∧
    ∀ i z, M.score_hrt hrt i z = -sqNorm (M.relation_embeddings (hrt i).2.1) := by
  have hprojh : ∀ i j, M.projRow (hrt i).2.1 (hrt i).1 j = 0 := by
    intro i j
    simp [TransR.projRow, vecMat, hh]
  have hprojt : ∀ i j, M.projRow (hrt i).2.1 (hrt i).2.2 j = 0 := by
    intro i j
    simp [TransR.projRow, vecMat, ht]
  have hH : ∀ j, subNorm (fun i (_ : Fin 1) j' => M.projRow (hrt i).2.1 (hrt i).1 j') j ≤ 1 := by
    intro j
    simp [subNorm, hprojh]
  have hT : ∀ j, subNorm (fun i (_ : Fin 1) j' => M.projRow (hrt i).2.1 (hrt i).2.2 j') j ≤ 1 := by
    intro j
    simp [subNorm, hprojt]
  refine ⟨renormLast_noop _ hH, renormLast_noop _ hT, ?_⟩
  intro i z
  rw [TransR.score_hrt_noclip M hrt hH hT i z]
  have hres : (fun j => M.projRow (hrt i).2.1 (hrt i).1 j +
      M.relation_embeddings (hrt i).2.1 j - M.projRow (hrt i).2.1 (hrt i).2.2 j) =
      M.relation_embeddings (hrt i).2.1 := by
    funext j
    rw [hprojh i j, hprojt i j]
    ring
  rw [hres]

/-- Witness for C8: the all-zero TransR model with a single-row batch. -/
theorem C8_zero_projection_noop_witness :
    TransR.score_hrt (⟨fun _ _ => 0, fun _ _ => 0, fun _ _ => 0, 1⟩ : TransR 1 1 1 1)
        (fun _ : Fin 1 => (0, 0, 0)) 0 0 =
      -sqNorm ((⟨fun _ _ => 0, fun _ _ => 0, fun _ _ => 0, 1⟩ :
        TransR 1 1 1 1).relation_embeddings 0) :=
  (C8_zero_projection_noop _ _ (fun _ _ => rfl) (fun _ _ => rfl)).2.2 0 0

/-- Claim C9: `clear_weights_` sets the entity and relation tables to None
and leaves `relation_projections` unchanged; a subsequent
`init_empty_weights_` creates fresh entity and relation tables (the relation
table re-normalized to unit rows) while retaining the previous projection
table. -/
theorem C9_clear_then_init_retains_projections {nE nR dE dR : ℕ}
    (s : TransRState nE nR dE dR) (p : Fin nR → Fin (dE * dR) → ℝ)
    (hp : s.relation_projections = some p)
    (freshE : Fin nE → Fin dE → ℝ) (freshR : Fin nR → Fin dR → ℝ)
    (freshP : Fin nR → Fin (dE * dR) → ℝ) :
    s.clear_weights_.entity_embeddings = none ∧
    s.clear_weights_.relation_embeddings = none ∧
    s.clear_weights_.relation_projections = some p ∧
    s.clear_weights_.init_empty_weights_ freshE freshR freshP =
      ⟨some freshE, some (fun rel => normalizeRow (freshR rel)), some p⟩ := by
  refine ⟨rfl, rfl, hp, ?_⟩
  simp [TransRState.clear_weights_, TransRState.init_empty_weights_, hp]

/-- Witness for C9: a fully populated 1-dimensional state, cleared and
re-initialized with explicit fresh tables. -/
theorem C9_clear_then_init_retains_projections_witness :
    (TransRState.clear_weights_
        (⟨some (fun _ _ => 5), some (fun _ _ => 6), some (fun _ _ => 7)⟩ :
          TransRState 1 1 1 1)).init_empty_weights_
        (fun _ _ => 1) (fun _ _ => 2) (fun _ _ => 3) =
      ⟨some (fun _ _ => 1),
       some (fun rel => normalizeRow ((fun _ _ => (2 : ℝ)) rel)),
       some (fun _ _ => 7)⟩ :=
  (C9_clear_then_init_retains_projections
    (⟨some (fun _ _ => 5), some (fun _ _ => 6), some (fun _ _ => 7)⟩ :
      TransRState 1 1 1 1)
    (fun _ _ => 7) rfl (fun _ _ => 1) (fun _ _ => 2) (fun _ _ => 3)).2.2.2

/-- Claim C4 as amended: `post_parameter_update` re-normalizes in place every
entity embedding row whose pre-update Euclidean norm is nonzero to norm
exactly 1; a row of zero norm is left unchanged (it stays zero) rather than
being brought to norm 1. -/
theorem C4_amended_post_parameter_update_norm {nE nR dE dR : ℕ}
    (M : TransR nE nR dE dR) (e : Fin nE) :
    (l2norm (M.entity_embeddings e) ≠ 0 →
      l2norm (M.post_parameter_update.entity_embeddings e) = 1) ∧
    (l2norm (M.entity_embeddings e) = 0 →
      M.post_parameter_update.entity_embeddings e = M.entity_embeddings e) := by
  constructor
  · intro hn
    have hpe : M.post_parameter_update.entity_embeddings e =
        normalizeRow (M.entity_embeddings e) := rfl
    rw [hpe]
    have hS : sqNorm (M.entity_embeddings e) ≠ 0 := fun h =>
      hn (by rw [l2norm, h, Real.sqrt_zero])
    have hsum : sqNorm (normalizeRow (M.entity_embeddings e)) =
        sqNorm (M.entity_embeddings e) / l2norm (M.entity_embeddings e) ^ 2 := by
      rw [sqNorm, sqNorm, Finset.sum_div]
      refine Finset.sum_congr rfl fun j _ => ?_
      show (M.entity_embeddings e j / l2norm (M.entity_embeddings e)) ^ 2 =
        M.entity_embeddings e j ^ 2 / l2norm (M.entity_embeddings e) ^ 2
      rw [div_pow]
    rw [l2norm, hsum, l2norm_sq, div_self hS, Real.sqrt_one]
  · intro h0
    have hz := (l2norm_eq_zero_iff (M.entity_embeddings e)).mp h0
    funext j
    show M.entity_embeddings e j / l2norm (M.entity_embeddings e) =
      M.entity_embeddings e j
    rw [hz j, zero_div]

/-- Counterexample to claim C4 as stated: in a model whose single entity row
is the zero vector, `post_parameter_update` leaves the row at zero
(`functional.normalize` maps a zero row to itself), so the post-update
Euclidean norm of that row is 0, not 1 — the norm is not restored to 1
regardless of the pre-update norm. -/
theorem C4_counterexample_zero_row :
    l2norm ((⟨fun _ _ => 0, fun _ _ => 0, fun _ _ => 0, 1⟩ :
        TransR 1 1 1 1).post_parameter_update.entity_embeddings 0) ≠ 1 := by
  have hrow : (⟨fun _ _ => 0, fun _ _ => 0, fun _ _ => 0, 1⟩ :
      TransR 1 1 1 1).post_parameter_update.entity_embeddings 0 =
      fun _ : Fin 1 => (0 : ℝ) := by
    funext j
    show (0 : ℝ) / l2norm (fun _ : Fin 1 => (0 : ℝ)) = 0
    rw [zero_div]
  rw [hrow, (l2norm_eq_zero_iff (fun _ : Fin 1 => (0 : ℝ))).mpr (fun _ => rfl)]
  norm_num

/-- Witness for the amended C4: a single entity row [2] has nonzero norm and
is brought to Euclidean norm exactly 1. -/
theorem C4_amended_post_parameter_update_norm_witness :
    l2norm ((⟨fun _ _ => 2, fun _ _ => 0, fun _ _ => 0, 1⟩ :
        TransR 1 1 1 1).entity_embeddings 0) ≠ 0 ∧
    l2norm ((⟨fun _ _ => 2, fun _ _ => 0, fun _ _ => 0, 1⟩ :
        TransR 1 1 1 1).post_parameter_update.entity_embeddings 0) = 1 := by
  have hn : l2norm ((⟨fun _ _ => 2, fun _ _ => 0, fun _ _ => 0, 1⟩ :
      TransR 1 1 1 1).entity_embeddings 0) ≠ 0 := fun h =>
    (by norm_num : (2 : ℝ) ≠ 0) ((l2norm_eq_zero_iff _).mp h 0)
  exact ⟨hn, (C4_amended_post_parameter_update_norm _ 0).1 hn⟩

/-- Claim C7: RESCAL's score_hrt is linear in each of the three operands
separately: scaling the head entity row (an entity distinct from the tail),
the relation row, or the tail entity row (distinct from the head) by a scalar
α scales the returned score by exactly α, holding the other two fixed. -/
theorem C7_rescal_bilinear_scaling {nE nR d : ℕ} (M : RESCAL nE nR d)
    (α : ℝ) (hId tId : Fin nE) (rId : Fin nR) (hne : hId ≠ tId) :
    RESCAL.score_hrt
        { M with entity_embeddings := (Function.update M.entity_embeddings hId
            (fun k => α * M.entity_embeddings hId k)) }
        (fun _ : Fin 1 => (hId, rId, tId)) 0 0 =
      α * RESCAL.score_hrt M (fun _ : Fin 1 => (hId, rId, tId)) 0 0 ∧
    RESCAL.score_hrt
        { M with relation_embeddings := (Function.update M.relation_embeddings rId
            (fun p => α * M.relation_embeddings rId p)) }
        (fun _ : Fin 1 => (hId, rId, tId)) 0 0 =
      α * RESCAL.score_hrt M (fun _ : Fin 1 => (hId, rId, tId)) 0 0 ∧
    RESCAL.score_hrt
        { M with entity_embeddings := (Function.update M.entity_embeddings tId
            (fun k => α * M.entity_embeddings tId k)) }
        (fun _ : Fin 1 => (hId, rId, tId)) 0 0 =
      α * RESCAL.score_hrt M (fun _ : Fin 1 => (hId, rId, tId)) 0 0 := by
  refine ⟨?_, ?_, ?_⟩
  · rw [RESCAL.score_hrt_sum, RESCAL.score_hrt_sum]
    simp only [Function.update_same, Function.update_noteq hne.symm]
    simp only [Finset.sum_mul, Finset.mul_sum]
    exact Finset.sum_congr rfl fun k _ => Finset.sum_congr rfl fun j _ => by ring
  · rw [RESCAL.score_hrt_sum, RESCAL.score_hrt_sum]
    simp only [Function.update_same, reshape2]
    simp only [Finset.sum_mul, Finset.mul_sum]
    exact Finset.sum_congr rfl fun k _ => Finset.sum_congr rfl fun j _ => by ring
  · rw [RESCAL.score_hrt_sum, RESCAL.score_hrt_sum]
    simp only [Function.update_same, Function.update_noteq hne]
    simp only [Finset.sum_mul, Finset.mul_sum]
    exact Finset.sum_congr rfl fun k _ => Finset.sum_congr rfl fun j _ => by ring

/-- The all-ones RESCAL model with two entities used to witness C7. -/
def C7M : RESCAL 2 1 1 := ⟨fun _ _ => 1, fun _ _ => 1⟩

/-- Witness for C7: scaling the head row of the all-ones model by 3 scales
the score of (0, 0, 1) by 3; the distinctness hypothesis holds for 0 ≠ 1. -/
theorem C7_rescal_bilinear_scaling_witness :
    (0 : Fin 2) ≠ 1 ∧
    RESCAL.score_hrt
        { C7M with entity_embeddings := (Function.update C7M.entity_embeddings 0
            (fun k => 3 * C7M.entity_embeddings 0 k)) }
        (fun _ : Fin 1 => (0, 0, 1)) 0 0 =
      3 * RESCAL.score_hrt C7M (fun _ : Fin 1 => (0, 0, 1)) 0 0 :=
  ⟨by decide, (C7_rescal_bilinear_scaling C7M 3 0 1 0 (by decide)).1⟩

lemma renormLast_entry {b m d : ℕ} (x : Fin b → Fin m → Fin d → ℝ)
    (i : Fin b) (k : Fin m) (j : Fin d) :
    renormLast x i k j =
      if 1 < subNorm x j then x i k j * (1 / subNorm x j) else x i k j := rfl

/-- The concrete TransR model for C1: embedding_dim = relation_dim = 2, two
entities with rows [1,1] and [0,0], one relation with embedding [0,0], and
the identity 2×2 projection stored as the flat row [1,0,0,1]. -/
def C1M : TransR 2 1 2 2 where
  entity_embeddings := fun e _ => if e.1 = 0 then 1 else 0
  relation_embeddings := fun _ _ => 0
  relation_projections := fun _ p => if p.1 = 0 ∨ p.1 = 3 then 1 else 0
  scoring_fct_norm := 1

lemma C1M_projRow_head : ∀ j : Fin 2, C1M.projRow 0 0 j = 1 := by
  intro j
  fin_cases j <;>
    norm_num [C1M, TransR.projRow, vecMat, reshape2, flatIdx, Fin.sum_univ_two] <;>
    decide

lemma C1M_projRow_tail : ∀ j : Fin 2, C1M.projRow 0 1 j = 0 := by
  intro j
  fin_cases j <;>
    norm_num [C1M, TransR.projRow, vecMat, reshape2, flatIdx, Fin.sum_univ_two]

lemma C1M_rel : ∀ j : Fin 2, C1M.relation_embeddings 0 j = 0 := fun _ => rfl

/-- Claim C1, evaluated at the failing input: with batch size 1, h-row [1,1],
t-row [0,0], r = [0,0] and the identity projection, the code's
`torch.renorm(h @ m_r, p=2, dim=-1, maxnorm=1.)` clips per-LAST-index
sub-tensors (scalars of absolute value at most 1 here), so the projected
head [1,1] — of Euclidean norm √2 > 1 — passes through unclipped and
`score_hrt` returns -2, whereas the claimed semantics (clip each projected
vector to L2 norm ≤ 1, as also asserted by the class docstring) yield -1 on
the same input. -/
theorem C1_transr_renorm_score_mismatch :
    TransR.score_hrt C1M (fun _ : Fin 1 => (0, 0, 1)) 0 0 = -2 ∧
    -l2norm (fun j => clampNormSpec (C1M.projRow 0 0) j +
        C1M.relation_embeddings 0 j - clampNormSpec (C1M.projRow 0 1) j) ^ 2 = -1 ∧
    ((-2 : ℝ) ≠ -1) := by
  have hH : ∀ j : Fin 2,
      subNorm (fun (_ : Fin 1) (_ : Fin 1) j' => C1M.projRow 0 0 j') j ≤ 1 := by
    intro j
    simp only [subNorm_b1, C1M_projRow_head]
    norm_num
  have hT : ∀ j : Fin 2,
      subNorm (fun (_ : Fin 1) (_ : Fin 1) j' => C1M.projRow 0 1 j') j ≤ 1 := by
    intro j
    simp only [subNorm_b1, C1M_projRow_tail]
    norm_num
  refine ⟨?_, ?_, by norm_num⟩
  · rw [TransR.score_hrt_noclip C1M (fun _ : Fin 1 => (0, 0, 1)) hH hT 0 0]
    simp only [C1M_projRow_head, C1M_projRow_tail, C1M_rel]
    norm_num [sqNorm, Fin.sum_univ_two]
  · have hfun0 : C1M.projRow 0 0 = fun _ : Fin 2 => (1 : ℝ) := funext C1M_projRow_head
    have hfun1 : C1M.projRow 0 1 = fun _ : Fin 2 => (0 : ℝ) := funext C1M_projRow_tail
    have hl1 : l2norm (fun _ : Fin 2 => (1 : ℝ)) = Real.sqrt 2 := by
      rw [l2norm]
      norm_num [sqNorm, Fin.sum_univ_two]
    have hl0 : l2norm (fun _ : Fin 2 => (0 : ℝ)) = 0 :=
      (l2norm_eq_zero_iff _).mpr fun _ => rfl
    have hsqrt2 : (1 : ℝ) < Real.sqrt 2 := (Real.lt_sqrt one_pos.le).mpr (by norm_num)
    have hc0 : ∀ j : Fin 2, clampNormSpec (fun _ : Fin 2 => (1 : ℝ)) j = 1 / Real.sqrt 2 := by
      intro j
      simp only [clampNormSpec, hl1, if_pos hsqrt2, one_mul]
    have hc1 : ∀ j : Fin 2, clampNormSpec (fun _ : Fin 2 => (0 : ℝ)) j = 0 := by
      intro j
      simp only [clampNormSpec, hl0]
      rw [if_neg (by norm_num : ¬ (1 : ℝ) < 0)]
    have hres : (fun j => clampNormSpec (C1M.projRow 0 0) j +
        C1M.relation_embeddings 0 j - clampNormSpec (C1M.projRow 0 1) j) =
        fun _ : Fin 2 => 1 / Real.sqrt 2 := by
      funext j
      rw [hfun0, hfun1, hc0 j, hc1 j, C1M_rel j]
      ring
    rw [hres, neg_l2norm_sq, sqNorm, Fin.sum_univ_two]
    have hhalf : (1 / Real.sqrt 2 : ℝ) ^ 2 = 1 / 2 := by
      rw [div_pow, one_pow, Real.sq_sqrt (by norm_num : (0 : ℝ) ≤ 2)]
    show -((1 / Real.sqrt 2 : ℝ) ^ 2 + (1 / Real.sqrt 2 : ℝ) ^ 2) = -1
    rw [hhalf]
    norm_num

/-- The concrete TransR model for C3: embedding_dim = relation_dim = 1, two
entities both embedded at [1], relation embedding [0], projection [1]. -/
def C3M : TransR 2 1 1 1 := ⟨fun _ _ => 1, fun _ _ => 0, fun _ _ => 1, 1⟩

lemma C3M_projRow : ∀ (e : Fin 2) (j : Fin 1), C3M.projRow 0 e j = 1 := by
  intro e j
  simp [C3M, TransR.projRow, vecMat, reshape2, Fin.sum_univ_one]

lemma C3M_rel : ∀ j : Fin 1, C3M.relation_embeddings 0 j = 0 := fun _ => rfl

/-- Counterexample to claim C3 as stated: in the model `C3M`, `score_hrt` of
the triple (0, 0, 1) returns 0, but the entry at column 1 of `score_t` of
(0, 0) is -(1 - 1/√2)² < 0.  The all-candidates renorm inside `score_t`
computes sub-tensor norms across the whole entity table (here √2 > 1) and
rescales the candidate tails, while `score_hrt` sees per-triple sub-tensors
of norm 1 and clips nothing, so the two scoring modes disagree. -/
theorem C3_counterexample_transr_modes_disagree :
    TransR.score_hrt C3M (fun _ : Fin 1 => (0, 0, 1)) 0 0 ≠
      TransR.score_t C3M (fun _ : Fin 1 => (0, 0)) 0 1 := by
  have hsqrt2 : (1 : ℝ) < Real.sqrt 2 := (Real.lt_sqrt one_pos.le).mpr (by norm_num)
  have hH : ∀ j : Fin 1,
      subNorm (fun (_ : Fin 1) (_ : Fin 1) j' => C3M.projRow 0 0 j') j ≤ 1 := by
    intro j
    simp only [subNorm_b1, C3M_projRow]
    norm_num
  have hT1 : ∀ j : Fin 1,
      subNorm (fun (_ : Fin 1) (_ : Fin 1) j' => C3M.projRow 0 1 j') j ≤ 1 := by
    intro j
    simp only [subNorm_b1, C3M_projRow]
    norm_num
  have hLHS : TransR.score_hrt C3M (fun _ : Fin 1 => (0, 0, 1)) 0 0 = 0 := by
    rw [TransR.score_hrt_noclip C3M (fun _ : Fin 1 => (0, 0, 1)) hH hT1 0 0]
    simp only [C3M_projRow, C3M_rel]
    norm_num [sqNorm, Fin.sum_univ_one]
  have hsubT : ∀ j : Fin 1,
      subNorm (fun (_ : Fin 1) (e : Fin 2) j' => C3M.projRow 0 e j') j = Real.sqrt 2 := by
    intro j
    rw [subNorm]
    norm_num [C3M_projRow, Fin.sum_univ_one, Fin.sum_univ_two]
  have hHval : ∀ j : Fin 1,
      renormLast (fun (_ : Fin 1) (_ : Fin 1) j' => C3M.projRow 0 0 j') 0 0 j = 1 := by
    intro j
    rw [renormLast_entry, if_neg (not_lt.mpr (hH j))]
    show C3M.projRow 0 0 j = 1
    exact C3M_projRow 0 j
  have hTval : ∀ j : Fin 1,
      renormLast (fun (_ : Fin 1) (e : Fin 2) j' => C3M.projRow 0 e j') 0 1 j =
        1 / Real.sqrt 2 := by
    intro j
    rw [renormLast_entry, hsubT j, if_pos hsqrt2]
    show C3M.projRow 0 1 j * (1 / Real.sqrt 2) = 1 / Real.sqrt 2
    rw [C3M_projRow 1 j, one_mul]
  have hRHS : TransR.score_t C3M (fun _ : Fin 1 => (0, 0)) 0 1 =
      -(1 - 1 / Real.sqrt 2) ^ 2 := by
    rw [TransR.score_t_apply]
    simp only []
    have hres : (fun j : Fin 1 =>
        renormLast (fun (_ : Fin 1) (_ : Fin 1) j' => C3M.projRow 0 0 j') 0 0 j +
        C3M.relation_embeddings 0 j -
        renormLast (fun (_ : Fin 1) (e : Fin 2) j' => C3M.projRow 0 e j') 0 1 j) =
        fun _ : Fin 1 => 1 - 1 / Real.sqrt 2 := by
      funext j
      rw [hHval j, hTval j, C3M_rel j]
      ring
    rw [hres, neg_l2norm_sq, sqNorm, Fin.sum_univ_one]
  rw [hLHS, hRHS]
  have hpos : (0 : ℝ) < 1 - 1 / Real.sqrt 2 := by
    have hs : 0 < Real.sqrt 2 := lt_trans one_pos hsqrt2
    have hlt : 1 / Real.sqrt 2 < 1 := by
      rw [div_lt_one hs]
      exact hsqrt2
    linarith
  exact ne_of_gt (by nlinarith)

/-- Claim C3 as amended: for RESCAL the three scoring modes are mutually
consistent on every batch and row; for TransR they agree on a triple
(h, r, t) scored with batch size 1 provided the renorm clip is inactive,
i.e. every per-coordinate sub-tensor of the full projected entity table
under relation r has L2 norm at most 1.  (The counterexample shows the
TransR modes disagree when the all-entities renorm of score_t actually
clips.) -/
theorem C3_amended_mode_consistency {nE nR d nE' nR' dE dR : ℕ}
    (MR : RESCAL nE nR d) {b : ℕ} (hrtR : Fin b → Fin nE × Fin nR × Fin nE)
    (i : Fin b)
    (MT : TransR nE' nR' dE dR) (hId tId : Fin nE') (rId : Fin nR')
    (hclip : ∀ j, subNorm (fun (_ : Fin 1) (e : Fin nE') j' => MT.projRow rId e j') j ≤ 1) :
    (MR.score_hrt hrtR i 0 =
        MR.score_t (fun i' => ((hrtR i').1, (hrtR i').2.1)) i (hrtR i).2.2 ∧
      MR.score_hrt hrtR i 0 =
        MR.score_h (fun i' => ((hrtR i').2.1, (hrtR i').2.2)) i (hrtR i).1) ∧
    (TransR.score_hrt MT (fun _ : Fin 1 => (hId, rId, tId)) 0 0 =
        TransR.score_t MT (fun _ : Fin 1 => (hId, rId)) 0 tId ∧
      TransR.score_hrt MT (fun _ : Fin 1 => (hId, rId, tId)) 0 0 =
        TransR.score_h MT (fun _ : Fin 1 => (rId, tId)) 0 hId) := by
  have hEntry : ∀ (e : Fin nE') (j : Fin dR), |MT.projRow rId e j| ≤ 1 := fun e j =>
    le_trans
      (entry_abs_le_subNorm (fun (_ : Fin 1) (e' : Fin nE') j' => MT.projRow rId e' j') 0 e j)
      (hclip j)
  have hb1 : ∀ (e : Fin nE') (j : Fin dR),
      subNorm (fun (_ : Fin 1) (_ : Fin 1) j' => MT.projRow rId e j') j ≤ 1 := by
    intro e j
    rw [subNorm_b1]
    exact hEntry e j
  refine ⟨⟨rfl, rfl⟩, ?_, ?_⟩
  · rw [TransR.score_hrt_noclip MT (fun _ : Fin 1 => (hId, rId, tId))
        (fun j => hb1 hId j) (fun j => hb1 tId j) 0 0,
      TransR.score_t_noclip MT (fun _ : Fin 1 => (hId, rId))
        (fun j => hb1 hId j) hclip 0 tId]
  · rw [TransR.score_hrt_noclip MT (fun _ : Fin 1 => (hId, rId, tId))
        (fun j => hb1 hId j) (fun j => hb1 tId j) 0 0,
      TransR.score_h_noclip MT (fun _ : Fin 1 => (rId, tId))
        hclip (fun j => hb1 tId j) 0 hId]

/-- Witness for the amended C3: a trivial one-entity RESCAL model and the
all-zero TransR model, whose projected entity table has all sub-norms 0 ≤ 1. -/
theorem C3_amended_mode_consistency_witness :
    RESCAL.score_hrt (⟨fun _ _ => 1, fun _ _ => 1⟩ : RESCAL 1 1 1)
        (fun _ : Fin 1 => (0, 0, 0)) 0 0 =
      RESCAL.score_t (⟨fun _ _ => 1, fun _ _ => 1⟩ : RESCAL 1 1 1)
        (fun _ : Fin 1 => (0, 0)) 0 0 ∧
    TransR.score_hrt (⟨fun _ _ => 0, fun _ _ => 0, fun _ _ => 0, 1⟩ : TransR 1 1 1 1)
        (fun _ : Fin 1 => (0, 0, 0)) 0 0 =
      TransR.score_t (⟨fun _ _ => 0, fun _ _ => 0, fun _ _ => 0, 1⟩ : TransR 1 1 1 1)
        (fun _ : Fin 1 => (0, 0)) 0 0 := by
  have h := C3_amended_mode_consistency (⟨fun _ _ => 1, fun _ _ => 1⟩ : RESCAL 1 1 1)
    (fun _ : Fin 1 => (0, 0, 0)) 0
    (⟨fun _ _ => 0, fun _ _ => 0, fun _ _ => 0, 1⟩ : TransR 1 1 1 1) 0 0 0
    (fun j => by
      have hz : ∀ (e : Fin 1) (j' : Fin 1),
          (⟨fun _ _ => 0, fun _ _ => 0, fun _ _ => 0, 1⟩ :
            TransR 1 1 1 1).projRow 0 e j' = 0 := by
        intro e j'
        simp [TransR.projRow, vecMat]
      simp [subNorm, hz])
  exact ⟨h.1.1, h.2.1⟩
